import Mathlib

/-!
Verification of the Ambrose document structural model and revision engine.

Shallow embedding of the core of the repository:

* `scripts/parse_docx.py` — section-number extraction, caption extraction,
  the `SectionTracker`, and the block walk of `parse_document`;
* `app/services/document_service.py` — `replace_paragraph_text`,
  `rebuild_document`, `generate_final_documents`, and
  `_apply_track_changes_to_paragraph`;
* `scripts/rebuild_docx.py` — the same clean-mode replacement walk.

Paragraph text is modelled as Lean `String`s; paragraphs carry a list of runs
(text plus formatting), a style name and an optional Word numbering signal,
mirroring what `python-docx` exposes to the code under test.  The anchored
regular expressions of the source are transcribed as deterministic matchers
over `List Char`; where a pattern needs backtracking (the overlap between
`[\d.A-Za-z()]+` and `[.\s:]+`) the matcher searches split points exactly as
the regex engine does.  The `.` metacharacter excludes the newline character,
as in Python without `DOTALL`.
-/

/-! ## Character classes and small string helpers -/

/-- Python `\s` for the ASCII range (space, tab, newline, CR, VT, FF). -/
def isPySpace (c : Char) : Bool :=
  c = ' ' || c = '\t' || c = '\n' || c = '\r' || c = '\x0b' || c = '\x0c'

/-- ASCII uppercase letter, the class `[A-Z]`. -/
def isUpperCh (c : Char) : Bool := 'A' ≤ c && c ≤ 'Z'

/-- ASCII lowercase letter, the class `[a-z]`. -/
def isLowerCh (c : Char) : Bool := 'a' ≤ c && c ≤ 'z'

/-- ASCII letter. -/
def isAlphaCh (c : Char) : Bool := isUpperCh c || isLowerCh c

/-- Uppercase roman-numeral letters, the class `[IVXLCDM]`. -/
def isRomanUpperCh (c : Char) : Bool :=
  c = 'I' || c = 'V' || c = 'X' || c = 'L' || c = 'C' || c = 'D' || c = 'M'

/-- Lowercase roman-numeral letters, the class `[ivxlcdm]`. -/
def isRomanLowerCh (c : Char) : Bool :=
  c = 'i' || c = 'v' || c = 'x' || c = 'l' || c = 'c' || c = 'd' || c = 'm'

/-- Roman-numeral letters of either case (`[IVXLCDM]` under `IGNORECASE`). -/
def isRomanCI (c : Char) : Bool := isRomanUpperCh c || isRomanLowerCh c

/-- The letters `[ivx]` of either case (used by the level-inference regex). -/
def isIvxCI (c : Char) : Bool :=
  c = 'i' || c = 'v' || c = 'x' || c = 'I' || c = 'V' || c = 'X'

/-- The class `[.\s:]` separating a section label from the rest of the line. -/
def isSepCl (c : Char) : Bool := c = '.' || isPySpace c || c = ':'

/-- The class `[\d.A-Za-z()]` forming the dotted body of a section label. -/
def isSectionBody (c : Char) : Bool :=
  c.isDigit || c = '.' || isAlphaCh c || c = '(' || c = ')'

/-- ASCII lowercasing of one character (Python `str.lower` on our inputs). -/
def lcChar (c : Char) : Char :=
  if isUpperCh c then Char.ofNat (c.toNat + 32) else c

/-- ASCII lowercasing of a string. -/
def lowerStr (s : String) : String := ⟨s.data.map lcChar⟩

/-- Python `str.strip()` on a character list. -/
def pyStripList (cs : List Char) : List Char :=
  ((cs.dropWhile isPySpace).reverse.dropWhile isPySpace).reverse

/-- Python `str.strip()`. -/
def pyStrip (s : String) : String := ⟨pyStripList s.data⟩

/-- Python `str.rstrip('.')`, used by `SectionTracker.get_section_ref`. -/
def rstripDot (s : String) : String :=
  ⟨(s.data.reverse.dropWhile (fun c => c = '.')).reverse⟩

/-- Python `"".join` over a list of strings. -/
def strConcat : List String → String
  | [] => ""
  | s :: rest => s ++ strConcat rest

/-- Python slicing `s[:n]` (by code point, as in the source). -/
def strTake (n : Nat) (s : String) : String := ⟨s.data.take n⟩

/-- Boolean string-prefix test (`str.startswith`), pattern first. -/
def strStarts : List Char → List Char → Bool
  | [], _ => true
  | _ :: _, [] => false
  | p :: ps, c :: cs => p = c && strStarts ps cs

/-! ## Anchored regex building blocks

Each of the patterns in `extract_section_number` is anchored (`re.match`) and
built from literals and character classes; the matchers below consume a prefix
of the input and report the consumed slice. -/

/-- Case-insensitive literal: consumes `lit` (compared lowercased) and returns
the consumed input slice together with the rest. -/
def litCI : List Char → List Char → Option (List Char × List Char)
  | [], cs => some ([], cs)
  | _ :: _, [] => none
  | l :: ls, c :: cs =>
    if lcChar l = lcChar c then
      match litCI ls cs with
      | some (a, r) => some (c :: a, r)
      | none => none
    else none

/-- One-or-more repetition of a character class (`[..]+`), greedy. -/
def take1 (p : Char → Bool) (cs : List Char) : Option (List Char × List Char) :=
  match cs.takeWhile p with
  | [] => none
  | r => some (r, cs.drop r.length)

/-- A single literal character. -/
def chLit (c : Char) : List Char → Option (List Char)
  | c' :: rest => if c' = c then some rest else none
  | [] => none

/-- The tail `(.*)$` of each pattern: `.` does not match a newline, and `$`
also matches just before a single trailing newline. -/
def dotStarEnd (cs : List Char) : Option (List Char) :=
  let pre := cs.takeWhile (fun c => c ≠ '\n')
  match cs.drop pre.length with
  | [] => some pre
  | ['\n'] => some pre
  | _ => none

/-- Backtracking search for `[\d.A-Za-z()]+[.\s:]+(.*)$`: the body class is
greedy, giving characters back (largest split first) until the separator class
can match at least one character; returns (body slice, group 2). -/
def bodySepTry (cs : List Char) : Nat → Option (List Char × List Char)
  | 0 => none
  | k + 1 =>
    match cs.drop (k + 1) with
    | c :: _ =>
      if isSepCl c then
        let rest := cs.drop (k + 1)
        let sep := rest.takeWhile isSepCl
        match dotStarEnd (rest.drop sep.length) with
        | some g2 => some (cs.take (k + 1), g2)
        | none => bodySepTry cs k
      else bodySepTry cs k
    | [] => bodySepTry cs k

/-- `[\d.A-Za-z()]+[.\s:]+(.*)$` with regex backtracking semantics. -/
def bodySep (cs : List Char) : Option (List Char × List Char) :=
  let m := (cs.takeWhile isSectionBody).length
  if m = 0 then none else bodySepTry cs m

/-! ## The pattern cascade of `extract_section_number`

Each matcher returns `(group 1, group 2)`.  For the parenthesised patterns
group 1 is the inner capture, exactly as in the source (the parentheses are
reconstructed afterwards).  The `article`/`section` patterns are compiled with
`re.IGNORECASE`, which also makes the upper/lower spelling pairs of the source
cascade match identically; both entries are kept in the cascade list. -/

/-- `^(KW\s+CLS+)[.\s:]+(.*)$` with `KW` case-insensitive; covers the
`ARTICLE <roman>`, `ARTICLE <int>` and `Section <int>` patterns (class and
separator are disjoint, so greedy matching is exact). -/
def mKwClass (kw : List Char) (cls : Char → Bool) (cs : List Char) :
    Option (List Char × List Char) := do
  let (a, r1) ← litCI kw cs
  let (sp, r2) ← take1 isPySpace r1
  let (body, r3) ← take1 cls r2
  let (_, r4) ← take1 isSepCl r3
  let g2 ← dotStarEnd r4
  some (a ++ sp ++ body, g2)

/-- `^(Section\s+[\d]+\.[\d\.A-Za-z\(\)]+)[.\s:]+(.*)$`, case-insensitive. -/
def mSectionDotted (cs : List Char) : Option (List Char × List Char) := do
  let (kw, r1) ← litCI "SECTION".data cs
  let (sp, r2) ← take1 isPySpace r1
  let (d, r3) ← take1 Char.isDigit r2
  let r4 ← chLit '.' r3
  let (body, g2) ← bodySep r4
  some (kw ++ sp ++ d ++ '.' :: body, g2)

/-- `^(\d+\.\d+\.\d+\.?\s*)(.*)$` — the `subsub` pattern. -/
def mSubsub (cs : List Char) : Option (List Char × List Char) := do
  let (d1, r1) ← take1 Char.isDigit cs
  let r2 ← chLit '.' r1
  let (d2, r3) ← take1 Char.isDigit r2
  let r4 ← chLit '.' r3
  let (d3, r5) ← take1 Char.isDigit r4
  let optDot := match r5 with
    | '.' :: _ => (['.'], r5.drop 1)
    | _ => (([] : List Char), r5)
  let sp := optDot.2.takeWhile isPySpace
  let g2 ← dotStarEnd (optDot.2.drop sp.length)
  some (d1 ++ '.' :: d2 ++ '.' :: d3 ++ optDot.1 ++ sp, g2)

/-- `^(\d+\.\d+\.?\s*)(.*)$` — the `sub` pattern. -/
def mSub (cs : List Char) : Option (List Char × List Char) := do
  let (d1, r1) ← take1 Char.isDigit cs
  let r2 ← chLit '.' r1
  let (d2, r3) ← take1 Char.isDigit r2
  let optDot := match r3 with
    | '.' :: _ => (['.'], r3.drop 1)
    | _ => (([] : List Char), r3)
  let sp := optDot.2.takeWhile isPySpace
  let g2 ← dotStarEnd (optDot.2.drop sp.length)
  some (d1 ++ '.' :: d2 ++ optDot.1 ++ sp, g2)

/-- `^(\d+\.)\s+(.*)$` — the `top` pattern (the spaces are outside group 1). -/
def mTop (cs : List Char) : Option (List Char × List Char) := do
  let (d, r1) ← take1 Char.isDigit cs
  let r2 ← chLit '.' r1
  let (_, r3) ← take1 isPySpace r2
  let g2 ← dotStarEnd r3
  some (d ++ ['.'], g2)

/-- `^([A-Z]\.)\s+(.*)$` / `^([a-z]\.)\s+(.*)$`. -/
def mLetterDot (cls : Char → Bool) (cs : List Char) : Option (List Char × List Char) :=
  match cs with
  | c :: '.' :: rest =>
    if cls c then
      match take1 isPySpace rest with
      | some (_, r) =>
        match dotStarEnd r with
        | some g2 => some ([c, '.'], g2)
        | none => none
      | none => none
    else none
  | _ => none

/-- `^\(([A-Z])\)\s*(.*)$` / `^\(([a-z])\)\s*(.*)$` — single parenthesised
letter; group 1 is the letter alone. -/
def mParenLetter (cls : Char → Bool) (cs : List Char) : Option (List Char × List Char) :=
  match cs with
  | '(' :: c :: ')' :: rest =>
    if cls c then
      match dotStarEnd (rest.dropWhile isPySpace) with
      | some g2 => some ([c], g2)
      | none => none
    else none
  | _ => none

/-- `^\((CLS+)\)\s*(.*)$` — parenthesised run; covers `(\d+)`, `([ivxlcdm]+)`
and `([IVXLCDM]+)`; group 1 is the inner run. -/
def mParenRun (cls : Char → Bool) (cs : List Char) : Option (List Char × List Char) :=
  match cs with
  | '(' :: rest₀ =>
    match take1 cls rest₀ with
    | some (run, r1) =>
      match chLit ')' r1 with
      | some r2 =>
        match dotStarEnd (r2.dropWhile isPySpace) with
        | some g2 => some (run, g2)
        | none => none
      | none => none
    | none => none
  | _ => none

/-- The ordered pattern cascade of `extract_section_number`, with the
`num_type` tag of each pattern.  The `Article`/`ARTICLE` and
`Section`/`SECTION` spelling pairs collapse to the same matcher because the
source compiles them with `re.IGNORECASE`. -/
def patternList : List ((List Char → Option (List Char × List Char)) × String) :=
  [ (mKwClass "ARTICLE".data isRomanCI, "article"),
    (mKwClass "ARTICLE".data isRomanCI, "article"),
    (mKwClass "ARTICLE".data Char.isDigit, "article"),
    (mKwClass "ARTICLE".data Char.isDigit, "article"),
    (mSectionDotted, "section"),
    (mKwClass "SECTION".data Char.isDigit, "section"),
    (mSectionDotted, "section"),
    (mKwClass "SECTION".data Char.isDigit, "section"),
    (mSubsub, "subsub"),
    (mSub, "sub"),
    (mTop, "top"),
    (mLetterDot isUpperCh, "letter_upper"),
    (mLetterDot isLowerCh, "letter_lower"),
    (mParenLetter isUpperCh, "paren_upper"),
    (mParenLetter isLowerCh, "paren_lower"),
    (mParenRun Char.isDigit, "paren_num"),
    (mParenRun isRomanLowerCh, "roman_lower"),
    (mParenRun isRomanUpperCh, "roman_upper") ]

/-- Try the cascade in order; first match wins. -/
def runCascade :
    List ((List Char → Option (List Char × List Char)) × String) → List Char →
    Option (List Char × List Char × String)
  | [], _ => none
  | (f, ty) :: rest, cs =>
    match f cs with
    | some (g1, g2) => some (g1, g2, ty)
    | none => runCascade rest cs

/-- `extract_section_number` from `scripts/parse_docx.py` (identical copy in
`app/services/document_service.py`): returns
`(section_number?, remaining, num_type?)`.  The input is stripped first; for
parenthesised and roman patterns the parentheses are reconstructed around the
captured group. -/
def extract_section_number (textRaw : String) : Option String × String × Option String :=
  let cs := pyStripList textRaw.data
  match runCascade patternList cs with
  | some (g1, g2, ty) =>
    let sn := pyStrip ⟨g1⟩
    let sn :=
      if (strStarts "paren".data ty.data || strStarts "roman".data ty.data)
          && !(strStarts "(".data sn.data) then
        "(" ++ sn ++ ")"
      else sn
    (some sn, pyStrip ⟨g2⟩, some ty)
  | none => (none, ⟨cs⟩, none)

/-! ## `extract_caption` -/

/-- Prefix match of `^([^.]+\.)`: a nonempty run of non-dots followed by a
dot; returns group 1. -/
def capFirstChunk (cs : List Char) : Option (List Char) :=
  let pre := cs.takeWhile (fun c => c ≠ '.')
  if pre.length = 0 then none
  else
    match cs.drop pre.length with
    | '.' :: _ => some (pre ++ ['.'])
    | _ => none

/-- The truncate-or-return tail of `extract_caption` (`max_length = 60`). -/
def capFallback (cs : List Char) : Option String :=
  if 60 < cs.length then some ((⟨pyStripList (cs.take 60)⟩ : String) ++ "...")
  else
    let st := pyStripList cs
    if st.length = 0 then none else some ⟨st⟩

/-- `extract_caption` from `scripts/parse_docx.py`: strips the section number,
then looks for `^([^.]+\.)\s{2,}` (caption followed by at least two spaces),
then for a first sentence of at most 60 characters, else truncates.  When the
remainder after the section number is empty the original argument is used,
exactly as in the source. -/
def extract_caption (text : String) : Option String :=
  let r := extract_section_number text
  let remaining := r.2.1
  let text_to_use := if remaining = "" then text else remaining
  let cs := text_to_use.data
  let capm : Option (List Char) :=
    match capFirstChunk cs with
    | some g1 =>
      match cs.drop g1.length with
      | a :: b :: _ => if isPySpace a && isPySpace b then some g1 else none
      | _ => none
    | none => none
  match capm with
  | some g1 => some (pyStrip ⟨g1⟩)
  | none =>
    match capFirstChunk cs with
    | some g1 =>
      if g1.length ≤ 60 then some (pyStrip ⟨g1⟩)
      else capFallback cs
    | none => capFallback cs

/-! ## The `SectionTracker` -/

/-- One node of the section hierarchy: `{level, number, caption}` as stored by
`SectionTracker.update`. -/
structure SecNode where
  level : Nat
  number : String
  caption : Option String
deriving DecidableEq, Repr

/-- The state of a `SectionTracker`: the hierarchy stack, the per-level
auto-numbering counters (a Python dict `level -> count`, here a partial
function), the last level (initialised to `-1`) and the last Word list id. -/
structure Tracker where
  hierarchy : List SecNode
  counters : Nat → Option Nat
  last_level : Int
  last_numId : Option String

/-- `SectionTracker.__init__`. -/
def Tracker.init : Tracker := ⟨[], fun _ => none, -1, none⟩

/-- Greedy roman-numeral conversion `SectionTracker._to_roman`: for each
value/symbol pair the `while` loop appends the symbol `n / value` times and
continues with `n % value`. -/
def romanPairs : List (Nat × String) :=
  [(1000, "M"), (900, "CM"), (500, "D"), (400, "CD"), (100, "C"), (90, "XC"),
   (50, "L"), (40, "XL"), (10, "X"), (9, "IX"), (5, "V"), (4, "IV"), (1, "I")]

/-- Repeat a string `n` times. -/
def repeatStr (s : String) : Nat → String
  | 0 => ""
  | n + 1 => s ++ repeatStr s n

/-- `SectionTracker._to_roman`. -/
def toRoman (n : Nat) : String :=
  (romanPairs.foldl
    (fun (acc : String × Nat) (p : Nat × String) =>
      (acc.1 ++ repeatStr p.2 (acc.2 / p.1), acc.2 % p.1)) ("", n)).1

/-- `SectionTracker._generate_section_number`: level 0 is an arabic counter
with a dot, level 1 an uppercase letter (then `A1, A2, …` past `Z`), level 2 a
lowercase roman numeral in parentheses, deeper levels an arabic counter in
parentheses.  `counters.get(level, 1)` defaults to 1. -/
def genSection (counters : Nat → Option Nat) (level : Nat) : String :=
  if level = 0 then Nat.repr ((counters 0).getD 1) ++ "."
  else if level = 1 then
    let count := (counters 1).getD 1
    let letter :=
      if count ≤ 26 then String.mk [Char.ofNat ('A'.toNat + count - 1)]
      else "A" ++ Nat.repr (count - 26)
    letter ++ "."
  else if level = 2 then
    let count := (counters 2).getD 1
    "(" ++ lowerStr (toRoman count) ++ ")"
  else
    "(" ++ Nat.repr ((counters level).getD 1) ++ ")"

/-- Prefix test for `^\d+\.` (the regex is a prefix match). -/
def matchNumDot (cs : List Char) : Option (List Char) := do
  let (_, r1) ← take1 Char.isDigit cs
  chLit '.' r1

/-- `^\d+\.\d+\.\d+` as a prefix. -/
def matchDDD (cs : List Char) : Bool :=
  (do
    let t1 ← matchNumDot cs
    let t2 ← matchNumDot t1
    let (_, _) ← take1 Char.isDigit t2
    some ()).isSome

/-- `^\d+\.\d+` as a prefix. -/
def matchDD (cs : List Char) : Bool :=
  (do
    let t1 ← matchNumDot cs
    let (_, _) ← take1 Char.isDigit t1
    some ()).isSome

/-- `^\d+\.` as a prefix. -/
def matchD (cs : List Char) : Bool := (matchNumDot cs).isSome

/-- `^\([ivx]+\)` (case-insensitive) as a prefix. -/
def matchParenIvx (cs : List Char) : Bool :=
  match cs with
  | '(' :: rest =>
    let run := rest.takeWhile isIvxCI
    decide (1 ≤ run.length) &&
      (match rest.drop run.length with
       | ')' :: _ => true
       | _ => false)
  | _ => false

/-- `^\([a-z]\)` (case-insensitive) as a prefix. -/
def matchParenLetterCI (cs : List Char) : Bool :=
  match cs with
  | '(' :: c :: ')' :: _ => isAlphaCh c
  | _ => false

/-- The level-inference chain of `SectionTracker.update` for a text-based
section number with no Word numbering level. -/
def inferTextLevel (st : Tracker) (sn : String) : Nat :=
  let cs := sn.data
  if strStarts "Article".data cs || strStarts "ARTICLE".data cs
      || strStarts "Section".data cs || strStarts "SECTION".data cs then 0
  else if matchDDD cs then 2
  else if matchDD cs then 1
  else if matchD cs then 0
  else if matchParenIvx cs then 2
  else if matchParenLetterCI cs then 2
  else if 0 ≤ st.last_level then (st.last_level + 1).toNat else 0

/-- `SectionTracker.update`.  With a Word numbering level and no text-based
section number, the counters are reset on a list-id change, counters deeper
than the current level are discarded, the current level's counter is
incremented and a label generated.  With a text-based number, the label is
used verbatim and the level is the Word level if present, else inferred.  In
both cases the hierarchy is truncated to `level` entries and the new node
appended; with no signal at all the state is returned unchanged. -/
def Tracker.update (st : Tracker) (numbering_level : Option Nat)
    (section_num : Option String) (caption : Option String)
    (numId : Option String) : Tracker :=
  match numbering_level, section_num with
  | some nl, none =>
    let st1 :=
      if numId ≠ st.last_numId then
        { st with counters := fun _ => none, last_numId := numId }
      else st
    let c1 : Nat → Option Nat := fun l => if nl < l then none else st1.counters l
    let cnt := (c1 nl).getD 0 + 1
    let c2 : Nat → Option Nat := fun l => if l = nl then some cnt else c1 l
    let sn := genSection c2 nl
    { st1 with
        counters := c2,
        hierarchy := st1.hierarchy.take nl ++ [⟨nl, sn, caption⟩],
        last_level := (nl : Int) }
  | _, some s =>
    let lvl :=
      match numbering_level with
      | some nl => nl
      | none => inferTextLevel st s
    { st with
        hierarchy := st.hierarchy.take lvl ++ [⟨lvl, s, caption⟩],
        last_level := (lvl : Int) }
  | none, none => st

/-- `SectionTracker.get_section_ref`: `None` when the stack is empty, else the
concatenation of the labels with trailing dots stripped. -/
def Tracker.get_section_ref (st : Tracker) : Option String :=
  match st.hierarchy with
  | [] => none
  | _ => some (strConcat (st.hierarchy.map (fun n => rstripDot n.number)))

/-! ## The document model: runs, paragraphs, blocks -/

/-- The run formatting captured by `replace_paragraph_text` and the tracked
changes writer: bold/italic/underline are tri-state in `python-docx`
(`None`/`True`/`False`), font name and size optional. -/
structure RunFmt where
  bold : Option Bool
  italic : Option Bool
  underline : Option Bool
  fontName : Option String
  fontSize : Option Nat
deriving DecidableEq, Repr

/-- A run: a span of text with its formatting. -/
structure Run where
  text : String
  fmt : RunFmt
deriving DecidableEq, Repr

/-- A Word numbering signal (`w:numPr`): indent level and list id, as read by
`get_paragraph_style_info`. -/
structure Numbering where
  level : Nat
  numId : String
deriving DecidableEq, Repr

/-- A paragraph as the code sees it through `python-docx`: runs, a style name
and an optional numbering signal. -/
structure Para where
  runs : List Run
  styleName : String
  numbering : Option Numbering
deriving DecidableEq, Repr

/-- `paragraph.text` in `python-docx`: the concatenation of the run texts. -/
def paraText (p : Para) : String := strConcat (p.runs.map (fun r => r.text))

/-- `style_name.lower().startswith("heading")`. -/
def paraHeading (p : Para) : Bool :=
  strStarts "heading".data (lowerStr p.styleName).data

/-- A body block: a paragraph, or a table holding rows of cells of
paragraphs (row-major), as yielded by `iter_block_items`. -/
inductive Block where
  | para (p : Para)
  | table (rows : List (List (List Para))) : Block
deriving DecidableEq, Repr

/-- Paragraphs of one table in walk order (rows, then cells, then cell
paragraphs). -/
def cellsParas : List (List Para) → List Para
  | [] => []
  | c :: cs => c ++ cellsParas cs

/-- Paragraphs of a table's rows in walk order. -/
def rowsParas : List (List (List Para)) → List Para
  | [] => []
  | r :: rs => cellsParas r ++ rowsParas rs

/-- Paragraphs of one block in walk order. -/
def blockParas : Block → List Para
  | .para p => [p]
  | .table rows => rowsParas rows

/-- All paragraphs of a document in the order both walks visit them. -/
def flattenParas : List Block → List Para
  | [] => []
  | b :: bs => blockParas b ++ flattenParas bs

/-- The paragraph id string `p_<k>`. -/
def pKey (k : Nat) : String := "p_" ++ Nat.repr k

/-! ## The parse walk (`parse_document` in `scripts/parse_docx.py`) -/

/-- The fields of a top-level paragraph entry of the parsed model that the
claims concern. -/
structure ParaData where
  id : String
  text : String
  section_number : Option String
  section_ref : Option String
  caption : Option String
  section_hierarchy : List SecNode
deriving DecidableEq, Repr

/-- The fields of a table-cell paragraph entry (`process_table` emits no
`section_ref` for cell paragraphs). -/
structure CellParaData where
  id : String
  text : String
  section_number : Option String
  caption : Option String
  section_hierarchy : List SecNode
deriving DecidableEq, Repr

/-- One entry of the parsed `content` list. -/
inductive ContentItem where
  | para (d : ParaData)
  | table (id : String) (rows : List (List (List CellParaData)))
      (section_hierarchy : List SecNode)
deriving DecidableEq, Repr

/-- The per-paragraph step of `parse_document`: strip the text, extract the
section number and caption, and offer the paragraph to the tracker when it has
a numbering signal, a (truthy) text-based section number, or a heading style.
Returns the content entry and the tracker that subsequent blocks see. -/
def parsePara (tr : Tracker) (pid : Nat) (p : Para) : ParaData × Tracker :=
  let para_text := pyStrip (paraText p)
  let r := extract_section_number para_text
  let sn := r.1
  let caption := extract_caption para_text
  let nlvl := p.numbering.map (fun nb => nb.level)
  let nid := p.numbering.map (fun nb => nb.numId)
  let offer :=
    nlvl.isSome
      || (match sn with
          | some s => s ≠ ""
          | none => false)
      || paraHeading p
  let tr' := if offer then Tracker.update tr nlvl sn caption nid else tr
  ({ id := pKey pid,
     text := para_text,
     section_number := sn,
     section_ref := tr'.get_section_ref,
     caption := caption,
     section_hierarchy := tr'.hierarchy }, tr')

/-- `process_table`'s inner loop over one cell's paragraphs: each cell
paragraph takes the next global id and is stamped with the current (unchanged)
hierarchy. -/
def processCellParas (tr : Tracker) : List Para → Nat → List CellParaData × Nat
  | [], pid => ([], pid)
  | p :: ps, pid =>
    let pid1 := pid + 1
    let text := pyStrip (paraText p)
    let r := extract_section_number text
    let d : CellParaData :=
      { id := pKey pid1,
        text := text,
        section_number := r.1,
        caption := extract_caption text,
        section_hierarchy := tr.hierarchy }
    let rest := processCellParas tr ps pid1
    (d :: rest.1, rest.2)

/-- `process_table`'s loop over one row's cells. -/
def processCells (tr : Tracker) : List (List Para) → Nat → List (List CellParaData) × Nat
  | [], pid => ([], pid)
  | c :: cs, pid =>
    let r1 := processCellParas tr c pid
    let rest := processCells tr cs r1.2
    (r1.1 :: rest.1, rest.2)

/-- `process_table`'s loop over rows. -/
def processRows (tr : Tracker) : List (List (List Para)) → Nat → List (List (List CellParaData)) × Nat
  | [], pid => ([], pid)
  | r :: rs, pid =>
    let r1 := processCells tr r pid
    let rest := processRows tr rs r1.2
    (r1.1 :: rest.1, rest.2)

/-- `process_table`: the table entry carries `tbl_<start_id>` and the current
hierarchy; cell paragraphs draw ids from the same global counter. -/
def process_table (tr : Tracker) (rows : List (List (List Para))) (start_id : Nat) :
    ContentItem × Nat :=
  let r := processRows tr rows start_id
  (ContentItem.table ("tbl_" ++ Nat.repr start_id) r.1 tr.hierarchy, r.2)

/-- The block walk of `parse_document`, threading the tracker and the global
paragraph-id counter. -/
def parseBlocksAux : List Block → Tracker → Nat → List ContentItem × Tracker × Nat
  | [], tr, pid => ([], tr, pid)
  | Block.para p :: bs, tr, pid =>
    let pid1 := pid + 1
    let r := parsePara tr pid1 p
    let rest := parseBlocksAux bs r.2 pid1
    (ContentItem.para r.1 :: rest.1, rest.2)
  | Block.table rows :: bs, tr, pid =>
    let r := process_table tr rows pid
    let rest := parseBlocksAux bs tr r.2
    (r.1 :: rest.1, rest.2)

/-- `parse_document`: the `content` list of the parsed model (defined terms,
sections and exhibits indexes are outside the claims under verification). -/
def parse_document (doc : List Block) : List ContentItem :=
  (parseBlocksAux doc Tracker.init 0).1

/-- Ids of one cell's paragraph entries. -/
def cellParaIds (l : List CellParaData) : List String := l.map (fun d => d.id)

/-- Ids of one row's paragraph entries. -/
def cellsIds : List (List CellParaData) → List String
  | [] => []
  | c :: cs => cellParaIds c ++ cellsIds cs

/-- Ids of a table's paragraph entries. -/
def rowsIds : List (List (List CellParaData)) → List String
  | [] => []
  | r :: rs => cellsIds r ++ rowsIds rs

/-- Ids of every paragraph entry of the parsed content, in walk order,
including table-cell paragraphs. -/
def contentParaIds : List ContentItem → List String
  | [] => []
  | ContentItem.para d :: r => d.id :: contentParaIds r
  | ContentItem.table _ rws _ :: r => rowsIds rws ++ contentParaIds r

/-- The expected id sequence `p_<s+1>, …, p_<s+n>`. -/
def pIds (s : Nat) : Nat → List String
  | 0 => []
  | n + 1 => pKey (s + 1) :: pIds (s + 1) n

/-- Hierarchies of one cell's paragraph entries. -/
def cellParaHiers (l : List CellParaData) : List (List SecNode) :=
  l.map (fun d => d.section_hierarchy)

/-- Hierarchies of one row's paragraph entries. -/
def cellsHiers : List (List CellParaData) → List (List SecNode)
  | [] => []
  | c :: cs => cellParaHiers c ++ cellsHiers cs

/-- Hierarchies of a table's paragraph entries. -/
def rowsHiers : List (List (List CellParaData)) → List (List SecNode)
  | [] => []
  | r :: rs => cellsHiers r ++ rowsHiers rs

/-- The `section_hierarchy` of every paragraph entry of the parsed content
(top-level and table-cell paragraphs). -/
def contentHiers : List ContentItem → List (List SecNode)
  | [] => []
  | ContentItem.para d :: r => d.section_hierarchy :: contentHiers r
  | ContentItem.table _ rws _ :: r => rowsHiers rws ++ contentHiers r

/-- The hierarchy invariant claimed by the specification, as a Boolean test:
nonempty hierarchies have length `level + 1` for the last node's level,
strictly increasing levels, and a level-0 node. -/
def levelsIncreasing : List SecNode → Bool
  | [] => true
  | [_] => true
  | a :: b :: t => decide (a.level < b.level) && levelsIncreasing (b :: t)

/-- The specified hierarchy invariant (length, monotonicity, level-0
presence) as a decidable test. -/
def specHierOk (h : List SecNode) : Bool :=
  h.isEmpty ||
    ((match h.getLast? with
      | some last => decide (h.length = last.level + 1)
      | none => false)
     && levelsIncreasing h
     && h.any (fun n => decide (n.level = 0)))

/-! ## Concrete documents for the scenario claims -/

/-- A run with unremarkable formatting, for concrete documents. -/
def plainFmt : RunFmt := ⟨none, none, none, none, none⟩

/-- A body paragraph with the given single-run text, style `Normal`, no
numbering signal. -/
def bodyPara (t : String) : Para := ⟨[⟨t, plainFmt⟩], "Normal", none⟩

/-- The scenario paragraph of the specification. -/
def c1Doc : List Block :=
  [Block.para (bodyPara "Section 5.3  Closing Date.  The Closing shall occur...")]

/-- The parsed entry the scenario paragraph produces. -/
def c1ParaData : ParaData :=
  { id := "p_1",
    text := "Section 5.3  Closing Date.  The Closing shall occur...",
    section_number := some "Section 5.3",
    section_ref := some "Section 5.3",
    caption := some "Closing Date.",
    section_hierarchy := [⟨0, "Section 5.3", some "Closing Date."⟩] }

/-- A document whose first paragraph opens with a level-2 textual marker. -/
def c2Doc : List Block :=
  [Block.para (bodyPara "(ii) Some provision here")]

/-- The hierarchy stamped on that paragraph: a single level-2 node. -/
def c2Hier : List SecNode := [⟨2, "(ii)", some "Some provision here"⟩]

/-! ## Clean-mode rebuild (`document_service.rebuild_document`) -/

/-- A revision record as consumed by the service layer: the fields
`rebuild_document` and `generate_final_documents` read
(`accepted`, `revised`, `original`, `rationale`). -/
structure RevisionRec where
  accepted : Bool
  revised : String
  original : String
  rationale : Option String
deriving DecidableEq, Repr

/-- The lookup `revised_lookup` built at the top of `rebuild_document`: the
`revised` text of each revision whose `accepted` flag is set, keyed by
paragraph id. -/
def buildLookup (revs : List (String × RevisionRec)) : List (String × String) :=
  revs.filterMap (fun e => if e.2.accepted then some (e.1, e.2.revised) else none)

/-- Dictionary lookup (`para_key in revised_lookup` / indexing); Python dict
keys are unique, which a first-match search generalises. -/
def lookupRev (lk : List (String × String)) (k : String) : Option String :=
  (lk.find? (fun e => e.1 == k)).map (fun e => e.2)

/-- Formatting restoration at the end of `replace_paragraph_text`: the
tri-state flags are assigned back unconditionally; font name and size only
when truthy (so a `None` or empty saved value leaves the run's current
value). -/
def restoreFmt (cur saved : RunFmt) : RunFmt :=
  { bold := saved.bold,
    italic := saved.italic,
    underline := saved.underline,
    fontName :=
      match saved.fontName with
      | some n => if n = "" then cur.fontName else some n
      | none => cur.fontName,
    fontSize :=
      match saved.fontSize with
      | some sz => if sz = 0 then cur.fontSize else some sz
      | none => cur.fontSize }

/-- `replace_paragraph_text` (identical in `document_service.py` and
`rebuild_docx.py`): with no runs, `paragraph.text = new_text` — the
`python-docx` setter replaces all content with a single default-formatted run;
otherwise the first run's formatting is saved, every run's text is cleared,
the new text is set on the first run and the saved formatting restored. -/
def replace_paragraph_text (p : Para) (new_text : String) : Para :=
  match p.runs with
  | [] => { p with runs := [⟨new_text, plainFmt⟩] }
  | first :: rest =>
    let saved := first.fmt
    let clearedFirst : Run := { first with text := "" }
    let clearedRest := rest.map (fun r => { r with text := "" })
    { p with
        runs := { clearedFirst with
                    text := new_text,
                    fmt := restoreFmt clearedFirst.fmt saved } :: clearedRest }

/-- The per-paragraph step of the rebuild walk: look the id up; on a hit,
replace only when the revised text differs from the whitespace-stripped
original, counting one change. -/
def rebuildPara (lk : List (String × String)) (pid : Nat) (p : Para) : Para × Nat :=
  match lookupRev lk (pKey pid) with
  | none => (p, 0)
  | some revised =>
    let original_text := pyStrip (paraText p)
    if original_text ≠ revised then (replace_paragraph_text p revised, 1) else (p, 0)

/-- Rebuild walk over one cell's paragraphs: returns the rebuilt paragraphs,
the advanced id counter and the number of changes. -/
def rebuildCellParas (lk : List (String × String)) : List Para → Nat → List Para × Nat × Nat
  | [], pid => ([], pid, 0)
  | p :: ps, pid =>
    let pid1 := pid + 1
    let r1 := rebuildPara lk pid1 p
    let rest := rebuildCellParas lk ps pid1
    (r1.1 :: rest.1, rest.2.1, r1.2 + rest.2.2)

/-- Rebuild walk over one row's cells. -/
def rebuildCells (lk : List (String × String)) : List (List Para) → Nat → List (List Para) × Nat × Nat
  | [], pid => ([], pid, 0)
  | c :: cs, pid =>
    let r1 := rebuildCellParas lk c pid
    let rest := rebuildCells lk cs r1.2.1
    (r1.1 :: rest.1, rest.2.1, r1.2.2 + rest.2.2)

/-- Rebuild walk over a table's rows. -/
def rebuildRows (lk : List (String × String)) : List (List (List Para)) → Nat → List (List (List Para)) × Nat × Nat
  | [], pid => ([], pid, 0)
  | r :: rs, pid =>
    let r1 := rebuildCells lk r pid
    let rest := rebuildRows lk rs r1.2.1
    (r1.1 :: rest.1, rest.2.1, r1.2.2 + rest.2.2)

/-- The block walk of `rebuild_document`, threading the same global paragraph
counter as the parse walk (top-level paragraphs and table cells row-major). -/
def rebuildBlocksAux (lk : List (String × String)) : List Block → Nat → List Block × Nat × Nat
  | [], pid => ([], pid, 0)
  | Block.para p :: bs, pid =>
    let pid1 := pid + 1
    let r1 := rebuildPara lk pid1 p
    let rest := rebuildBlocksAux lk bs pid1
    (Block.para r1.1 :: rest.1, rest.2.1, r1.2 + rest.2.2)
  | Block.table rows :: bs, pid =>
    let r1 := rebuildRows lk rows pid
    let rest := rebuildBlocksAux lk bs r1.2.1
    (Block.table r1.1 :: rest.1, rest.2.1, r1.2.2 + rest.2.2)

/-- `rebuild_document`: duplicate the original container (`shutil.copy2`, a
value copy here), apply the accepted revisions along the walk, and return the
freshly saved document together with the number of changes made. -/
def rebuild_document (doc : List Block) (revisions : List (String × RevisionRec)) :
    List Block × Nat :=
  let lk := buildLookup revisions
  let r := rebuildBlocksAux lk doc 0
  (r.1, r.2.2)

/-- Positional application: paragraph `k` of the flattened walk (1-based) is
rebuilt against the key `p_<k>`; this is the specification-side description
the rebuild walk is proved to refine. -/
def applyAt (lk : List (String × String)) : Nat → List Para → List Para
  | _, [] => []
  | pid, p :: ps => (rebuildPara lk (pid + 1) p).1 :: applyAt lk (pid + 1) ps

/-- Texts of a paragraph list. -/
def paraTexts (l : List Para) : List String := l.map paraText

/-! ## Concrete documents for the rebuild claims -/

/-- Two-paragraph document for the unknown-id scenario. -/
def c9Doc : List Block :=
  [Block.para (bodyPara "Alpha text"), Block.para (bodyPara "Beta text")]

/-- One valid accepted revision and one accepted revision citing an id that no
paragraph carries. -/
def c9Revs : List (String × RevisionRec) :=
  [("p_1", ⟨true, "Gamma text", "Alpha text", none⟩),
   ("p_99", ⟨true, "Delta text", "Missing", none⟩)]

/-! ## Tracked-changes markup (`_apply_track_changes_to_paragraph`) -/

/-- The paragraph-level elements the writer appends: a plain `w:r`, a `w:del`
wrapper (whose run holds `w:delText`), or a `w:ins` wrapper — the latter two
carrying `w:id`, `w:author` and `w:date` attributes. -/
inductive TCElem where
  | plain (rpr : Option RunFmt) (text : String)
  | delMark (wid : Nat) (author : String) (date : String) (rpr : Option RunFmt) (text : String)
  | insMark (wid : Nat) (author : String) (date : String) (rpr : Option RunFmt) (text : String)
deriving DecidableEq, Repr

/-- The loop body over the diff list: an equal op emits a plain run, a delete
op a `w:del` element, an insert op a `w:ins` element (any other op value
appends nothing); the `w:id` is `hash(text) % 100000`, with the interpreter's
string hash left abstract as `hashF`. -/
def applyTCElems (hashF : String → Nat) (fmt : Option RunFmt) (author date : String) :
    List (Int × String) → List TCElem
  | [] => []
  | (op, t) :: rest =>
    (if op = 0 then [TCElem.plain fmt t]
     else if op = -1 then [TCElem.delMark (hashF t % 100000) author date fmt t]
     else if op = 1 then [TCElem.insMark (hashF t % 100000) author date fmt t]
     else []) ++ applyTCElems hashF fmt author date rest

/-- `_apply_track_changes_to_paragraph`: the first run's formatting (if any)
is captured and applied to every emitted run; the existing `w:r` children are
removed and the diff-driven elements appended in diff order.  The diff itself
(`diff_match_patch.diff_main` + `diff_cleanupSemantic`) is external library
code; theorems take its documented contract as a hypothesis. -/
def apply_track_changes_to_paragraph (hashF : String → Nat) (p : Para)
    (diffs : List (Int × String)) (author date : String) : List TCElem :=
  applyTCElems hashF ((p.runs.head?).map (fun r => r.fmt)) author date diffs

/-- Concatenated text of the unchanged and inserted runs (deleted runs
ignored) — what a reviewer sees after accepting all changes. -/
def elemsNewText : List TCElem → String
  | [] => ""
  | TCElem.plain _ t :: r => t ++ elemsNewText r
  | TCElem.insMark _ _ _ _ t :: r => t ++ elemsNewText r
  | TCElem.delMark _ _ _ _ _ :: r => elemsNewText r

/-- Concatenated text of the unchanged and deleted runs (inserted runs
ignored) — the pre-revision text. -/
def elemsOrigText : List TCElem → String
  | [] => ""
  | TCElem.plain _ t :: r => t ++ elemsOrigText r
  | TCElem.delMark _ _ _ _ t :: r => t ++ elemsOrigText r
  | TCElem.insMark _ _ _ _ _ :: r => elemsOrigText r

/-- The equal-and-delete side of a diff list (the `diff_main` contract makes
this the original text). -/
def diffsOrigText : List (Int × String) → String
  | [] => ""
  | (op, t) :: r => if op = 0 || op = -1 then t ++ diffsOrigText r else diffsOrigText r

/-- The equal-and-insert side of a diff list (the `diff_main` contract makes
this the revised text). -/
def diffsNewText : List (Int × String) → String
  | [] => ""
  | (op, t) :: r => if op = 0 || op = 1 then t ++ diffsNewText r else diffsNewText r

/-- A deletion or insertion element carries the given author and date. -/
def elemAttributed (author date : String) : TCElem → Prop
  | TCElem.plain _ _ => True
  | TCElem.delMark _ a d _ _ => a = author ∧ d = date
  | TCElem.insMark _ a d _ _ => a = author ∧ d = date

/-! ## `generate_final_documents` and its fallback path -/

/-- One entry of the `revision_details` list returned to the caller. -/
structure RevDetail where
  para_id : String
  section_ref : String
  original_preview : String
  rationale : String
deriving DecidableEq, Repr

/-- The dictionary `generate_final_documents` returns. -/
structure FinalDocs where
  track_changes_path : String
  clean_path : String
  revision_count : Nat
  revision_details : List RevDetail
deriving DecidableEq, Repr

/-- The full observable outcome of a `generate_final_documents` call: the
returned dictionary, whether the track-changes file actually received
attributed markup (as opposed to the clean-rebuild fallback), and the
diagnostics emitted on the fallback path (the source logs nothing: the
exception handler discards the exception and the no-redlines branch is
silent). -/
structure FinalOutcome where
  result : FinalDocs
  trackedMarkup : Bool
  logs : List String
deriving DecidableEq, Repr

/-- The id a content item answers to (`item.get('id')`). -/
def contentId : ContentItem → String
  | ContentItem.para d => d.id
  | ContentItem.table tid _ _ => tid

/-- `item.get('section_ref', '')`: table entries have no such key. -/
def contentSectionRef : ContentItem → Option String
  | ContentItem.para d => d.section_ref
  | ContentItem.table _ _ _ => none

/-- `item.get('text', '')`: table entries have no such key. -/
def contentText : ContentItem → String
  | ContentItem.para d => d.text
  | ContentItem.table _ _ _ => ""

/-- The revision-detail record built for one accepted revision: look the
paragraph up in the parsed content; `section_ref or para_id` falls back to the
id when the reference is missing or empty; the preview is the first 100
characters (of the model text when found, else of the revision's original),
with an ellipsis when the revision's original exceeds 100 characters;
a missing rationale reads `No rationale provided`. -/
def revDetailFor (content : List ContentItem) (para_id : String) (rev : RevisionRec) :
    RevDetail :=
  let found := content.find? (fun it => contentId it == para_id)
  let sref : Option String := found.map (fun it => (contentSectionRef it).getD "")
  { para_id := para_id,
    section_ref :=
      match sref with
      | some s => if s = "" then para_id else s
      | none => para_id,
    original_preview :=
      (match found with
       | some it => strTake 100 (contentText it)
       | none => strTake 100 rev.original)
        ++ (if 100 < rev.original.length then "..." else ""),
    rationale := rev.rationale.getD "No rationale provided" }

/-- `generate_final_documents`: filter the accepted revisions, build the
detail list, and write the track-changes document — with attributed markup
only when the redlines library imported, at least one revision is accepted,
and the markup writer does not raise (`redlinesFails` models the `except`
branch); in every other case the file silently receives a clean rebuild.  The
returned dictionary is built from the accepted revisions and paths alone. -/
def generate_final_documents (hasRedlines redlinesFails : Bool)
    (outputDir sessionId : String) (parsedContent : List ContentItem)
    (revisions : List (String × RevisionRec)) : FinalOutcome :=
  let accepted := revisions.filter (fun e => e.2.accepted)
  let details := accepted.map (fun e => revDetailFor parsedContent e.1 e.2)
  { result :=
      { track_changes_path := outputDir ++ "/" ++ sessionId ++ "_track_changes.docx",
        clean_path := outputDir ++ "/" ++ sessionId ++ "_clean.docx",
        revision_count := accepted.length,
        revision_details := details },
    trackedMarkup := hasRedlines && !accepted.isEmpty && !redlinesFails,
    logs := [] }

/-- Concrete parsed content and revisions for the fallback scenario. -/
def c3Content : List ContentItem := parse_document c1Doc

/-- One accepted revision for the fallback scenario. -/
def c3Revs : List (String × RevisionRec) :=
  [("p_1", ⟨true, "Section 5.3  Closing Date.  The Closing shall occur promptly.",
    "Section 5.3  Closing Date.  The Closing shall occur...", some "tighten closing"⟩)]

/-! ## Remaining definitions used by the theorems -/

/-- The label of the most recently pushed hierarchy node. -/
def lastLabel (tr : Tracker) : Option String :=
  tr.hierarchy.getLast?.map (fun n => n.number)

/-- Numbering-restart scenario: four auto-numbered paragraphs of one list,
levels 0, 1, 1, 0. -/
def c8T1 : Tracker := Tracker.update Tracker.init (some 0) none none (some "7")

/-- Second step of the restart scenario. -/
def c8T2 : Tracker := Tracker.update c8T1 (some 1) none none (some "7")

/-- Third step of the restart scenario. -/
def c8T3 : Tracker := Tracker.update c8T2 (some 1) none none (some "7")

/-- Fourth step of the restart scenario. -/
def c8T4 : Tracker := Tracker.update c8T3 (some 0) none none (some "7")

/-- Length bound actually maintained by the tracker: a nonempty hierarchy has
at most `last.level + 1` entries (the truncate-and-append of `update` keeps at
most `level` old entries). -/
def hierLenOk (h : List SecNode) : Prop :=
  ∀ last, h.getLast? = some last → h.length ≤ last.level + 1

/-- The tracker invariant propagated through the parse walk. -/
def trackerHierOk (tr : Tracker) : Prop := hierLenOk tr.hierarchy

/-! ## Theorems -/

/-- C7: when a paragraph carries both an explicit textual section marker and a
list-style numbering signal, `SectionTracker.update` stores the textual marker
verbatim as the node label (with the Word level), leaving the auto-numbering
counters and list id untouched; the generated counter label is produced only
on the no-textual-marker path, where the stored label is exactly the generated
one. -/
theorem c7_textual_marker_precedence (st : Tracker) (lvl : Nat) (s : String)
    (cap : Option String) (nid : Option String) :
    (Tracker.update st (some lvl) (some s) cap nid).hierarchy.getLast? = some ⟨lvl, s, cap⟩
    ∧ (Tracker.update st (some lvl) (some s) cap nid).counters = st.counters
    ∧ (Tracker.update st (some lvl) (some s) cap nid).last_numId = st.last_numId
    ∧ (Tracker.update st (some lvl) none cap nid).hierarchy.getLast?
        = some ⟨lvl, genSection (Tracker.update st (some lvl) none cap nid).counters lvl, cap⟩ :=
  ⟨List.getLast?_concat _, rfl, rfl, List.getLast?_concat _⟩

/-- C8: auto-numbering counters reset when the active list id changes (the new
counter map holds exactly `1` at the updated level), any counter strictly
deeper than the current level is discarded within the same list, and the
`(L0,L1)` level sequence `1 → A → B → 2` in one list yields the labels
`1.`, `A.`, `B.`, `2.`. -/
theorem c8_counter_reset :
    (∀ (st : Tracker) (lvl : Nat) (cap : Option String) (nid : Option String),
      nid ≠ st.last_numId →
      (Tracker.update st (some lvl) none cap nid).counters
        = fun l => if l = lvl then some 1 else none)
    ∧ (∀ (st : Tracker) (lvl l2 : Nat) (cap : Option String),
      lvl < l2 →
      (Tracker.update st (some lvl) none cap st.last_numId).counters l2 = none)
    ∧ lastLabel c8T1 = some "1." ∧ lastLabel c8T2 = some "A."
    ∧ lastLabel c8T3 = some "B." ∧ lastLabel c8T4 = some "2." := by
  refine ⟨?_, ?_, by decide, by decide, by decide, by decide⟩
  · intro st lvl cap nid h
    funext l
    simp [Tracker.update, h]
  · intro st lvl l2 cap h
    simp [Tracker.update, h, ne_of_gt h]

/-- Witness for C8: the reset and discard clauses instantiated on the initial
tracker. -/
theorem c8_counter_reset_witness :
    (Tracker.update Tracker.init (some 1) none none (some "9")).counters
        = (fun l => if l = 1 then some 1 else none)
    ∧ (Tracker.update Tracker.init (some 0) none none Tracker.init.last_numId).counters 2 = none :=
  ⟨c8_counter_reset.1 Tracker.init 1 none (some "9") (by decide),
   c8_counter_reset.2.1 Tracker.init 0 2 none (by decide)⟩

/-- C1 counterexample: parsing the scenario paragraph
`"Section 5.3  Closing Date.  The Closing shall occur..."` yields
`caption = "Closing Date."` as claimed, but `section_ref` is the full matched
marker `"Section 5.3"`, not `"5.3"`: `get_section_ref` concatenates the stored
labels verbatim, stripping only trailing dots. -/
theorem c1_section_scenario_counterexample :
    parse_document c1Doc = [ContentItem.para c1ParaData]
    ∧ c1ParaData.caption = some "Closing Date."
    ∧ c1ParaData.section_ref = some "Section 5.3"
    ∧ c1ParaData.section_ref ≠ some "5.3" := by
  exact ⟨by decide, by decide, by decide, by decide⟩

/-- C1 amended: for the scenario paragraph, parsing produces
`section_ref = "Section 5.3"` (the textual marker verbatim, keyword included)
and `caption = "Closing Date."`. -/
theorem c1_section_scenario_amended :
    (parse_document c1Doc).head? = some (ContentItem.para c1ParaData)
    ∧ c1ParaData.section_ref = some "Section 5.3"
    ∧ c1ParaData.caption = some "Closing Date." := by
  exact ⟨by decide, by decide, by decide⟩

/-- The truncate-and-append of `update` always leaves a hierarchy of at most
`level + 1` entries ending in a node of that level. -/
theorem hierLenOk_push (h : List SecNode) (k : Nat) (s : String) (cap : Option String) :
    hierLenOk (h.take k ++ [⟨k, s, cap⟩]) := by
  intro last hl
  rw [List.getLast?_concat] at hl
  cases hl
  simp only [List.length_append, List.length_take, List.length_singleton]
  omega

/-- `Tracker.update` preserves the hierarchy length bound. -/
theorem update_trackerHierOk (st : Tracker) (nl : Option Nat) (sn : Option String)
    (cap nid : Option String) (h : trackerHierOk st) :
    trackerHierOk (Tracker.update st nl sn cap nid) := by
  cases nl with
  | none =>
    cases sn with
    | none => exact h
    | some s => exact hierLenOk_push _ _ _ _
  | some l =>
    cases sn with
    | none => exact hierLenOk_push _ _ _ _
    | some s => exact hierLenOk_push _ _ _ _

/-- Cell paragraphs are all stamped with the hierarchy current at the table. -/
theorem processCellParas_hiers (tr : Tracker) (ps : List Para) (pid : Nat) :
    cellParaHiers (processCellParas tr ps pid).1
      = List.replicate ps.length tr.hierarchy := by
  induction ps generalizing pid with
  | nil => rfl
  | cons p ps ih =>
    simp only [processCellParas, cellParaHiers, List.map_cons, List.length_cons,
      List.replicate_succ]
    exact congrArg _ (ih (pid + 1))

/-- Row-level version of `processCellParas_hiers`. -/
theorem processCells_hiers (tr : Tracker) (cs : List (List Para)) (pid : Nat) :
    cellsHiers (processCells tr cs pid).1
      = List.replicate (cellsParas cs).length tr.hierarchy := by
  induction cs generalizing pid with
  | nil => rfl
  | cons c cs ih =>
    simp only [processCells, cellsHiers, cellsParas, List.length_append,
      List.replicate_add]
    exact congrArg₂ _ (processCellParas_hiers tr c pid) (ih _)

/-- Table-level version of `processCellParas_hiers`. -/
theorem processRows_hiers (tr : Tracker) (rs : List (List (List Para))) (pid : Nat) :
    rowsHiers (processRows tr rs pid).1
      = List.replicate (rowsParas rs).length tr.hierarchy := by
  induction rs generalizing pid with
  | nil => rfl
  | cons r rs ih =>
    simp only [processRows, rowsHiers, rowsParas, List.length_append,
      List.replicate_add]
    exact congrArg₂ _ (processCells_hiers tr r pid) (ih _)

/-- Every hierarchy stamped by the parse walk satisfies the length bound, and
the tracker keeps satisfying it. -/
theorem parseBlocksAux_hiersOk (bs : List Block) (tr : Tracker) (pid : Nat)
    (ok : trackerHierOk tr) :
    (∀ h ∈ contentHiers (parseBlocksAux bs tr pid).1, hierLenOk h)
    ∧ trackerHierOk (parseBlocksAux bs tr pid).2.1 := by
  induction bs generalizing tr pid with
  | nil =>
    refine ⟨?_, ok⟩
    intro h hm
    simp [parseBlocksAux, contentHiers] at hm
  | cons b bs ih =>
    cases b with
    | para p =>
      have ok' : trackerHierOk (parsePara tr (pid + 1) p).2 := by
        unfold parsePara
        dsimp only
        split
        · exact update_trackerHierOk _ _ _ _ _ ok
        · exact ok
      obtain ⟨ih1, ih2⟩ := ih (parsePara tr (pid + 1) p).2 (pid + 1) ok'
      refine ⟨?_, ih2⟩
      intro h hm
      simp only [parseBlocksAux, contentHiers, List.mem_cons] at hm
      cases hm with
      | inl e => subst e; exact ok'
      | inr m => exact ih1 h m
    | table rows =>
      obtain ⟨ih1, ih2⟩ := ih tr (processRows tr rows pid).2 ok
      refine ⟨?_, ih2⟩
      intro h hm
      simp only [parseBlocksAux, process_table, contentHiers, List.mem_append] at hm
      cases hm with
      | inl m =>
        have he : h = tr.hierarchy :=
          List.eq_of_mem_replicate ((processRows_hiers tr rows pid) ▸ m)
        rw [he]
        exact ok
      | inr m => exact ih1 h m

/-- C2 counterexample: the one-paragraph document whose text is
`"(ii) Some provision here"` parses to a paragraph whose hierarchy is a single
level-2 node — length 1 instead of the claimed `level + 1 = 3`, no strictly
increasing chain from a level-0 node, and no level-0 node at all. -/
theorem c2_hierarchy_invariant_counterexample :
    (parse_document c2Doc).head? = some (ContentItem.para
      { id := "p_1",
        text := "(ii) Some provision here",
        section_number := some "(ii)",
        section_ref := some "(ii)",
        caption := some "Some provision here",
        section_hierarchy := c2Hier })
    ∧ c2Hier ∈ contentHiers (parse_document c2Doc)
    ∧ specHierOk c2Hier = false := by
  exact ⟨by decide, by decide, by decide⟩

/-- C2 amended: for every document and every paragraph of its parsed model,
the `section_hierarchy` has at most `level + 1` entries, where `level` is the
last node's level (equality, strictly increasing node levels and the presence
of a level-0 node do not hold in general — a document can open at a deep
level). -/
theorem c2_hierarchy_invariant_amended (doc : List Block) (h : List SecNode)
    (hm : h ∈ contentHiers (parse_document doc)) :
    ∀ last, h.getLast? = some last → h.length ≤ last.level + 1 := by
  have base : trackerHierOk Tracker.init := by
    intro last hl
    simp [Tracker.init] at hl
  exact (parseBlocksAux_hiersOk doc Tracker.init 0 base).1 h hm

/-- Witness for C2 (amended): the level-2 scenario paragraph instantiates the
bound. -/
theorem c2_hierarchy_invariant_witness :
    c2Hier ∈ contentHiers (parse_document c2Doc) ∧ c2Hier.length ≤ 2 + 1 :=
  ⟨by decide,
   c2_hierarchy_invariant_amended c2Doc c2Hier (by decide)
     ⟨2, "(ii)", some "Some provision here"⟩ (by decide)⟩

/-- With an empty lookup the per-paragraph step is the identity. -/
theorem rebuildPara_nil (pid : Nat) (p : Para) : rebuildPara [] pid p = (p, 0) := rfl

/-- With an empty lookup a cell walk returns its input and no changes. -/
theorem rebuildCellParas_nil (ps : List Para) (pid : Nat) :
    rebuildCellParas [] ps pid = (ps, pid + ps.length, 0) := by
  induction ps generalizing pid with
  | nil => rfl
  | cons p ps ih =>
    simp only [rebuildCellParas, rebuildPara_nil, ih, List.length_cons, Prod.mk.injEq]
    exact ⟨trivial, by omega, trivial⟩

/-- With an empty lookup a row walk returns its input and no changes. -/
theorem rebuildCells_nil (cs : List (List Para)) (pid : Nat) :
    rebuildCells [] cs pid = (cs, pid + (cellsParas cs).length, 0) := by
  induction cs generalizing pid with
  | nil => rfl
  | cons c cs ih =>
    simp only [rebuildCells, rebuildCellParas_nil, ih, cellsParas, List.length_append,
      Prod.mk.injEq]
    exact ⟨trivial, by omega, trivial⟩

/-- With an empty lookup a table walk returns its input and no changes. -/
theorem rebuildRows_nil (rs : List (List (List Para))) (pid : Nat) :
    rebuildRows [] rs pid = (rs, pid + (rowsParas rs).length, 0) := by
  induction rs generalizing pid with
  | nil => rfl
  | cons r rs ih =>
    simp only [rebuildRows, rebuildCells_nil, ih, rowsParas, List.length_append,
      Prod.mk.injEq]
    exact ⟨trivial, by omega, trivial⟩

/-- With an empty lookup the block walk returns its input and no changes. -/
theorem rebuildBlocksAux_nil (bs : List Block) (pid : Nat) :
    rebuildBlocksAux [] bs pid = (bs, pid + (flattenParas bs).length, 0) := by
  induction bs generalizing pid with
  | nil => simp [rebuildBlocksAux, flattenParas]
  | cons b bs ih =>
    cases b with
    | para p =>
      simp only [rebuildBlocksAux, rebuildPara_nil, ih, flattenParas, blockParas,
        List.singleton_append, List.length_cons, Prod.mk.injEq]
      exact ⟨trivial, by omega, trivial⟩
    | table rows =>
      simp only [rebuildBlocksAux, rebuildRows_nil, ih, flattenParas, blockParas,
        List.length_append, Prod.mk.injEq]
      exact ⟨trivial, by omega, trivial⟩

/-- C5: rebuilding (clean mode) with an empty revision set returns a document
every one of whose paragraphs — table cells included — has the original text
(indeed the document value itself), reporting zero changes; the output is the
freshly written duplicate produced by the copy-and-save pipeline, not the
original by reference (the model's rebuild constructs its output along the
walk). -/
theorem c5_noop_rebuild (doc : List Block) :
    rebuild_document doc [] = (doc, 0)
    ∧ paraTexts (flattenParas (rebuild_document doc []).1) = paraTexts (flattenParas doc) := by
  have h1 : rebuild_document doc [] = (doc, 0) := by
    simp [rebuild_document, buildLookup, rebuildBlocksAux_nil]
  exact ⟨h1, by rw [h1]⟩

/-- The element list emitted for a diff list reconstructs both sides of the
diff and attributes every deletion/insertion element. -/
theorem applyTCElems_spec (hashF : String → Nat) (fmt : Option RunFmt)
    (author date : String) (diffs : List (Int × String))
    (hops : ∀ x ∈ diffs, x.1 = 0 ∨ x.1 = -1 ∨ x.1 = 1) :
    elemsNewText (applyTCElems hashF fmt author date diffs) = diffsNewText diffs
    ∧ elemsOrigText (applyTCElems hashF fmt author date diffs) = diffsOrigText diffs
    ∧ ∀ e ∈ applyTCElems hashF fmt author date diffs, elemAttributed author date e := by
  induction diffs with
  | nil =>
    refine ⟨rfl, rfl, ?_⟩
    intro e he
    simp [applyTCElems] at he
  | cons x rest ih =>
    obtain ⟨op, t⟩ := x
    obtain ⟨ih1, ih2, ih3⟩ := ih (fun y hy => hops y (List.mem_cons_of_mem _ hy))
    rcases hops (op, t) (List.mem_cons_self _ _) with h | h | h <;>
      simp only at h <;> subst h
    · refine ⟨?_, ?_, ?_⟩
      · simp [applyTCElems, elemsNewText, diffsNewText, ih1]
      · simp [applyTCElems, elemsOrigText, diffsOrigText, ih2]
      · intro e he
        rw [show applyTCElems hashF fmt author date (((0 : Int), t) :: rest)
              = TCElem.plain fmt t :: applyTCElems hashF fmt author date rest from rfl] at he
        cases he with
        | head => trivial
        | tail _ hh => exact ih3 e hh
    · refine ⟨?_, ?_, ?_⟩
      · simp [applyTCElems, elemsNewText, diffsNewText, ih1]
      · simp [applyTCElems, elemsOrigText, diffsOrigText, ih2]
      · intro e he
        rw [show applyTCElems hashF fmt author date (((-1 : Int), t) :: rest)
              = TCElem.delMark (hashF t % 100000) author date fmt t
                  :: applyTCElems hashF fmt author date rest from rfl] at he
        cases he with
        | head => exact ⟨rfl, rfl⟩
        | tail _ hh => exact ih3 e hh
    · refine ⟨?_, ?_, ?_⟩
      · simp [applyTCElems, elemsNewText, diffsNewText, ih1]
      · simp [applyTCElems, elemsOrigText, diffsOrigText, ih2]
      · intro e he
        rw [show applyTCElems hashF fmt author date (((1 : Int), t) :: rest)
              = TCElem.insMark (hashF t % 100000) author date fmt t
                  :: applyTCElems hashF fmt author date rest from rfl] at he
        cases he with
        | head => exact ⟨rfl, rfl⟩
        | tail _ hh => exact ih3 e hh

/-- C4: for a tracked-mode paragraph built from a diff of `original_text`
against `new_text` (hypotheses: the diff's ops are equal/delete/insert and its
two projections are the two texts, which is the `diff_main` contract),
concatenating unchanged and inserted run text — ignoring deletions — yields
exactly `new_text`; concatenating unchanged and deleted run text — ignoring
insertions — yields exactly `original_text`; and every deletion and insertion
element carries the author name and the timestamp. -/
theorem c4_tracked_runs_reconstruct (hashF : String → Nat) (p : Para)
    (diffs : List (Int × String)) (author date orig new : String)
    (hops : ∀ x ∈ diffs, x.1 = 0 ∨ x.1 = -1 ∨ x.1 = 1)
    (horig : diffsOrigText diffs = orig) (hnew : diffsNewText diffs = new) :
    elemsNewText (apply_track_changes_to_paragraph hashF p diffs author date) = new
    ∧ elemsOrigText (apply_track_changes_to_paragraph hashF p diffs author date) = orig
    ∧ ∀ e ∈ apply_track_changes_to_paragraph hashF p diffs author date,
        elemAttributed author date e := by
  subst horig hnew
  exact applyTCElems_spec hashF ((p.runs.head?).map (fun r => r.fmt)) author date diffs hops

/-- Witness for C4: a concrete three-op diff over the closing-date sentence. -/
theorem c4_tracked_runs_reconstruct_witness :
    elemsNewText (apply_track_changes_to_paragraph (fun s => s.length)
        (bodyPara "The Closing shall occur promptly")
        [((0 : Int), "The Closing shall occur"), ((-1 : Int), " promptly"),
         ((1 : Int), " no later than 30 days")] "Reviewer" "2026-01-01T00:00:00Z")
      = "The Closing shall occur no later than 30 days"
    ∧ elemsOrigText (apply_track_changes_to_paragraph (fun s => s.length)
        (bodyPara "The Closing shall occur promptly")
        [((0 : Int), "The Closing shall occur"), ((-1 : Int), " promptly"),
         ((1 : Int), " no later than 30 days")] "Reviewer" "2026-01-01T00:00:00Z")
      = "The Closing shall occur promptly"
    ∧ ∀ e ∈ apply_track_changes_to_paragraph (fun s => s.length)
        (bodyPara "The Closing shall occur promptly")
        [((0 : Int), "The Closing shall occur"), ((-1 : Int), " promptly"),
         ((1 : Int), " no later than 30 days")] "Reviewer" "2026-01-01T00:00:00Z",
        elemAttributed "Reviewer" "2026-01-01T00:00:00Z" e :=
  c4_tracked_runs_reconstruct (fun s => s.length)
    (bodyPara "The Closing shall occur promptly")
    [((0 : Int), "The Closing shall occur"), ((-1 : Int), " promptly"),
     ((1 : Int), " no later than 30 days")]
    "Reviewer" "2026-01-01T00:00:00Z"
    "The Closing shall occur promptly" "The Closing shall occur no later than 30 days"
    (by decide) (by decide) (by decide)

/-- C3 counterexample: with the redlines capability present but failing, the
track-changes document silently receives the clean-mode fallback — no log
message is emitted and the caller receives a result identical to the
successful tracked run, so the degradation is not reported. -/
theorem c3_fallback_counterexample :
    (generate_final_documents true true "out" "s1" c3Content c3Revs).trackedMarkup = false
    ∧ (generate_final_documents true true "out" "s1" c3Content c3Revs).logs = []
    ∧ (generate_final_documents true true "out" "s1" c3Content c3Revs).result
        = (generate_final_documents true false "out" "s1" c3Content c3Revs).result := by
  exact ⟨by decide, rfl, by decide⟩

/-- C3 amended: whenever the attributed-markup subsystem is unavailable or
fails, the engine does fall back to clean-mode replacement for that document,
but silently: nothing is logged in either case, the returned result is
identical to the success case for every input, and the failure run produces no
tracked markup. -/
theorem c3_fallback_amended (hr : Bool) (outputDir sessionId : String)
    (content : List ContentItem) (revs : List (String × RevisionRec)) :
    (generate_final_documents hr true outputDir sessionId content revs).logs = []
    ∧ (generate_final_documents hr false outputDir sessionId content revs).logs = []
    ∧ (generate_final_documents hr true outputDir sessionId content revs).result
        = (generate_final_documents hr false outputDir sessionId content revs).result
    ∧ (generate_final_documents true true outputDir sessionId content revs).trackedMarkup
        = false := by
  refine ⟨rfl, rfl, rfl, ?_⟩
  simp [generate_final_documents]

/-- C10: in clean-mode replacement, a matched paragraph with zero runs has its
whole text set directly, producing a single fresh default-formatted run with
no formatting captured or restored; and the change test compares the revised
text against the whitespace-stripped original, so a revision equal to the
stripped original leaves the paragraph (and its runs) untouched and counts no
change. -/
theorem c10_no_runs_and_noop :
    (∀ (p : Para) (t : String), p.runs = [] →
        replace_paragraph_text p t = { p with runs := [⟨t, plainFmt⟩] })
    ∧ (∀ (lk : List (String × String)) (pid : Nat) (p : Para),
        lookupRev lk (pKey pid) = some (pyStrip (paraText p)) →
        rebuildPara lk pid p = (p, 0)) := by
  constructor
  · intro p t h
    unfold replace_paragraph_text
    rw [h]
  · intro lk pid p h
    unfold rebuildPara
    rw [h]
    simp

/-- Witness for C10: an empty-run paragraph gains one default run, and a
revision matching the stripped text is a counted-free no-op. -/
theorem c10_no_runs_and_noop_witness :
    replace_paragraph_text ⟨[], "Normal", none⟩ "New text"
        = ⟨[⟨"New text", plainFmt⟩], "Normal", none⟩
    ∧ rebuildPara [("p_1", "Alpha text")] 1 (bodyPara "Alpha text")
        = (bodyPara "Alpha text", 0) :=
  ⟨c10_no_runs_and_noop.1 ⟨[], "Normal", none⟩ "New text" rfl,
   c10_no_runs_and_noop.2 [("p_1", "Alpha text")] 1 (bodyPara "Alpha text") (by decide)⟩

/-- Splitting an id range. -/
theorem pIds_append (s a b : Nat) : pIds s (a + b) = pIds s a ++ pIds (s + a) b := by
  induction a generalizing s with
  | zero => simp [pIds]
  | succ a ih =>
    have e1 : a + 1 + b = (a + b) + 1 := by omega
    have e2 : s + 1 + a = s + (a + 1) := by omega
    rw [e1]
    simp only [pIds, ih (s + 1), e2, List.cons_append]

/-- The parse walk advances the id counter by one per cell paragraph. -/
theorem processCellParas_snd (tr : Tracker) (ps : List Para) (pid : Nat) :
    (processCellParas tr ps pid).2 = pid + ps.length := by
  induction ps generalizing pid with
  | nil => rfl
  | cons p ps ih =>
    simp only [processCellParas, ih, List.length_cons]
    omega

/-- Cell paragraphs receive consecutive ids. -/
theorem processCellParas_ids (tr : Tracker) (ps : List Para) (pid : Nat) :
    cellParaIds (processCellParas tr ps pid).1 = pIds pid ps.length := by
  induction ps generalizing pid with
  | nil => rfl
  | cons p ps ih =>
    simp only [processCellParas, cellParaIds, List.map_cons, List.length_cons, pIds]
    exact congrArg _ (ih (pid + 1))

/-- Row-level id-counter advance. -/
theorem processCells_snd (tr : Tracker) (cs : List (List Para)) (pid : Nat) :
    (processCells tr cs pid).2 = pid + (cellsParas cs).length := by
  induction cs generalizing pid with
  | nil => rfl
  | cons c cs ih =>
    simp only [processCells, processCellParas_snd, ih, cellsParas, List.length_append]
    omega

/-- Row-level consecutive ids. -/
theorem processCells_ids (tr : Tracker) (cs : List (List Para)) (pid : Nat) :
    cellsIds (processCells tr cs pid).1 = pIds pid (cellsParas cs).length := by
  induction cs generalizing pid with
  | nil => rfl
  | cons c cs ih =>
    simp only [processCells, cellsIds, cellsParas, List.length_append, pIds_append]
    rw [processCellParas_ids, ih, processCellParas_snd]

/-- Table-level id-counter advance. -/
theorem processRows_snd (tr : Tracker) (rs : List (List (List Para))) (pid : Nat) :
    (processRows tr rs pid).2 = pid + (rowsParas rs).length := by
  induction rs generalizing pid with
  | nil => rfl
  | cons r rs ih =>
    simp only [processRows, processCells_snd, ih, rowsParas, List.length_append]
    omega

/-- Table-level consecutive ids. -/
theorem processRows_ids (tr : Tracker) (rs : List (List (List Para))) (pid : Nat) :
    rowsIds (processRows tr rs pid).1 = pIds pid (rowsParas rs).length := by
  induction rs generalizing pid with
  | nil => rfl
  | cons r rs ih =>
    simp only [processRows, rowsIds, rowsParas, List.length_append, pIds_append]
    rw [processCells_ids, ih, processCells_snd]

/-- The full parse walk advances the id counter by the flattened paragraph
count. -/
theorem parseBlocksAux_snd (bs : List Block) (tr : Tracker) (pid : Nat) :
    (parseBlocksAux bs tr pid).2.2 = pid + (flattenParas bs).length := by
  induction bs generalizing tr pid with
  | nil => rfl
  | cons b bs ih =>
    cases b with
    | para p =>
      simp only [parseBlocksAux, ih, flattenParas, blockParas, List.singleton_append,
        List.length_cons]
      omega
    | table rows =>
      simp only [parseBlocksAux, process_table, ih, processRows_snd, flattenParas,
        blockParas, List.length_append]
      omega

/-- The parse walk assigns the ids `p_<pid+1>, p_<pid+2>, …` to the
paragraphs, table cells included, in walk order. -/
theorem parseBlocksAux_ids (bs : List Block) (tr : Tracker) (pid : Nat) :
    contentParaIds (parseBlocksAux bs tr pid).1 = pIds pid (flattenParas bs).length := by
  induction bs generalizing tr pid with
  | nil => rfl
  | cons b bs ih =>
    cases b with
    | para p =>
      simp only [parseBlocksAux, contentParaIds, flattenParas, blockParas,
        List.singleton_append, List.length_cons, pIds]
      exact congrArg _ (ih _ (pid + 1))
    | table rows =>
      simp only [parseBlocksAux, process_table, contentParaIds, flattenParas, blockParas,
        List.length_append, pIds_append]
      rw [processRows_ids, ih, processRows_snd]

/-- Splitting positional application over an append. -/
theorem applyAt_append (lk : List (String × String)) (s : Nat) (xs ys : List Para) :
    applyAt lk s (xs ++ ys) = applyAt lk s xs ++ applyAt lk (s + xs.length) ys := by
  induction xs generalizing s with
  | nil => simp [applyAt]
  | cons x xs ih =>
    have e : s + (xs.length + 1) = s + 1 + xs.length := by omega
    calc applyAt lk s ((x :: xs) ++ ys)
        = (rebuildPara lk (s + 1) x).1 :: applyAt lk (s + 1) (xs ++ ys) := rfl
      _ = (rebuildPara lk (s + 1) x).1
            :: (applyAt lk (s + 1) xs ++ applyAt lk (s + 1 + xs.length) ys) := by
          rw [ih (s + 1)]
      _ = applyAt lk s (x :: xs) ++ applyAt lk (s + (x :: xs).length) ys := by
          rw [List.length_cons, e]
          rfl

/-- The rebuild cell walk is positional application. -/
theorem rebuildCellParas_fst (lk : List (String × String)) (ps : List Para) (pid : Nat) :
    (rebuildCellParas lk ps pid).1 = applyAt lk pid ps := by
  induction ps generalizing pid with
  | nil => rfl
  | cons p ps ih =>
    simp only [rebuildCellParas, applyAt]
    exact congrArg _ (ih (pid + 1))

/-- The rebuild cell walk advances the id counter by one per paragraph. -/
theorem rebuildCellParas_snd (lk : List (String × String)) (ps : List Para) (pid : Nat) :
    (rebuildCellParas lk ps pid).2.1 = pid + ps.length := by
  induction ps generalizing pid with
  | nil => rfl
  | cons p ps ih =>
    simp only [rebuildCellParas, ih, List.length_cons]
    omega

/-- Row-level positional application. -/
theorem rebuildCells_fst (lk : List (String × String)) (cs : List (List Para)) (pid : Nat) :
    cellsParas (rebuildCells lk cs pid).1 = applyAt lk pid (cellsParas cs) := by
  induction cs generalizing pid with
  | nil => rfl
  | cons c cs ih =>
    simp only [rebuildCells, cellsParas, applyAt_append]
    rw [rebuildCellParas_fst, ih, rebuildCellParas_snd]

/-- Row-level id-counter advance. -/
theorem rebuildCells_snd (lk : List (String × String)) (cs : List (List Para)) (pid : Nat) :
    (rebuildCells lk cs pid).2.1 = pid + (cellsParas cs).length := by
  induction cs generalizing pid with
  | nil => rfl
  | cons c cs ih =>
    simp only [rebuildCells, rebuildCellParas_snd, ih, cellsParas, List.length_append]
    omega

/-- Table-level positional application. -/
theorem rebuildRows_fst (lk : List (String × String)) (rs : List (List (List Para))) (pid : Nat) :
    rowsParas (rebuildRows lk rs pid).1 = applyAt lk pid (rowsParas rs) := by
  induction rs generalizing pid with
  | nil => rfl
  | cons r rs ih =>
    simp only [rebuildRows, rowsParas, applyAt_append]
    rw [rebuildCells_fst, ih, rebuildCells_snd]

/-- Table-level id-counter advance. -/
theorem rebuildRows_snd (lk : List (String × String)) (rs : List (List (List Para))) (pid : Nat) :
    (rebuildRows lk rs pid).2.1 = pid + (rowsParas rs).length := by
  induction rs generalizing pid with
  | nil => rfl
  | cons r rs ih =>
    simp only [rebuildRows, rebuildCells_snd, ih, rowsParas, List.length_append]
    omega

/-- The flattened output of the rebuild walk is positional application of the
revision lookup along the same global id sequence the parse walk assigned. -/
theorem rebuildBlocksAux_fst (lk : List (String × String)) (bs : List Block) (pid : Nat) :
    flattenParas (rebuildBlocksAux lk bs pid).1 = applyAt lk pid (flattenParas bs) := by
  induction bs generalizing pid with
  | nil => rfl
  | cons b bs ih =>
    cases b with
    | para p =>
      simp only [rebuildBlocksAux, flattenParas, blockParas, List.singleton_append, applyAt]
      exact congrArg _ (ih (pid + 1))
    | table rows =>
      simp only [rebuildBlocksAux, flattenParas, blockParas, applyAt_append]
      rw [rebuildRows_fst, ih, rebuildRows_snd]

/-- C6: the parse walk assigns exactly the ids `p_1 … p_n` to the `n`
flattened paragraphs (table cells row-major) in walk order — so parsing the
same container twice yields identical ids in identical order — and the
clean-mode rebuild walk maps the `k`-th flattened paragraph through the
revision entry keyed `p_k`, i.e. an accepted revision keyed `p_k` is applied
to exactly the `k`-th paragraph visited in block order. -/
theorem c6_id_correspondence (doc : List Block) (revs : List (String × RevisionRec)) :
    contentParaIds (parse_document doc) = pIds 0 (flattenParas doc).length
    ∧ flattenParas (rebuild_document doc revs).1
        = applyAt (buildLookup revs) 0 (flattenParas doc) :=
  ⟨parseBlocksAux_ids doc Tracker.init 0, rebuildBlocksAux_fst (buildLookup revs) doc 0⟩

/-- `buildLookup` keeps an accepted head revision. -/
theorem buildLookup_cons_pos (e : String × RevisionRec) (h : e.2.accepted = true)
    (revs : List (String × RevisionRec)) :
    buildLookup (e :: revs) = (e.1, e.2.revised) :: buildLookup revs := by
  simp [buildLookup, List.filterMap_cons, h]

/-- `buildLookup` drops a non-accepted head revision. -/
theorem buildLookup_cons_neg (e : String × RevisionRec) (h : e.2.accepted = false)
    (revs : List (String × RevisionRec)) :
    buildLookup (e :: revs) = buildLookup revs := by
  simp [buildLookup, List.filterMap_cons, h]

/-- Pre-filtering revisions by a key predicate (together with acceptance) is
the same as filtering the built lookup by that key predicate. -/
theorem buildLookup_filter (revs : List (String × RevisionRec)) (P : String → Bool) :
    buildLookup (revs.filter (fun e => e.2.accepted && P e.1))
      = (buildLookup revs).filter (fun kv => P kv.1) := by
  induction revs with
  | nil => rfl
  | cons e revs ih =>
    by_cases ha : e.2.accepted = true
    · by_cases hp : P e.1 = true
      · simp [List.filter_cons, ha, hp, buildLookup_cons_pos e ha, ih]
      · have hp' : P e.1 = false := by simpa using hp
        simp [List.filter_cons, ha, hp', buildLookup_cons_pos e ha, ih]
    · have ha' : e.2.accepted = false := by simpa using ha
      simp [List.filter_cons, ha', buildLookup_cons_neg e ha', ih]

/-- Filtering an association list by a key predicate satisfied at `k` does not
change the first binding found for `k`. -/
theorem find?_filter_key (lk : List (String × String)) (P : String → Bool) (k : String)
    (h : P k = true) :
    (lk.filter (fun kv => P kv.1)).find? (fun e => e.1 == k)
      = lk.find? (fun e => e.1 == k) := by
  induction lk with
  | nil => rfl
  | cons kv lk ih =>
    by_cases hk : (kv.1 == k) = true
    · have hp : P kv.1 = true := by rw [eq_of_beq hk]; exact h
      simp [List.filter_cons, hp, List.find?_cons, hk]
    · have hk' : (kv.1 == k) = false := by simpa using hk
      by_cases hp : P kv.1 = true
      · simp [List.filter_cons, hp, List.find?_cons, hk', ih]
      · have hp' : P kv.1 = false := by simpa using hp
        simp [List.filter_cons, hp', List.find?_cons, hk', ih]

/-- Key-predicate filtering does not change a lookup at a satisfied key. -/
theorem lookupRev_filter (lk : List (String × String)) (P : String → Bool) (k : String)
    (h : P k = true) :
    lookupRev (lk.filter (fun kv => P kv.1)) k = lookupRev lk k := by
  unfold lookupRev
  rw [find?_filter_key lk P k h]

/-- The per-paragraph rebuild step only consults its own key. -/
theorem rebuildPara_filter (lk : List (String × String)) (P : String → Bool) (pid : Nat)
    (p : Para) (h : P (pKey pid) = true) :
    rebuildPara (lk.filter (fun kv => P kv.1)) pid p = rebuildPara lk pid p := by
  unfold rebuildPara
  rw [lookupRev_filter lk P (pKey pid) h]

/-- A cell walk only consults the keys of the ids it visits. -/
theorem rebuildCellParas_filter (lk : List (String × String)) (P : String → Bool)
    (ps : List Para) (pid : Nat)
    (h : ∀ i, i < ps.length → P (pKey (pid + i + 1)) = true) :
    rebuildCellParas (lk.filter (fun kv => P kv.1)) ps pid = rebuildCellParas lk ps pid := by
  induction ps generalizing pid with
  | nil => rfl
  | cons p ps ih =>
    simp only [rebuildCellParas]
    rw [rebuildPara_filter lk P (pid + 1) p (h 0 (by simp)),
        ih (pid + 1) (fun i hi => by
          have e : pid + 1 + i + 1 = pid + (i + 1) + 1 := by omega
          rw [e]
          exact h (i + 1) (by simp only [List.length_cons]; omega))]

/-- A row walk only consults the keys of the ids it visits. -/
theorem rebuildCells_filter (lk : List (String × String)) (P : String → Bool)
    (cs : List (List Para)) (pid : Nat)
    (h : ∀ i, i < (cellsParas cs).length → P (pKey (pid + i + 1)) = true) :
    rebuildCells (lk.filter (fun kv => P kv.1)) cs pid = rebuildCells lk cs pid := by
  induction cs generalizing pid with
  | nil => rfl
  | cons c cs ih =>
    simp only [rebuildCells]
    rw [rebuildCellParas_filter lk P c pid (fun i hi => h i (by
          simp only [cellsParas, List.length_append]
          omega)),
        rebuildCellParas_snd,
        ih (pid + c.length) (fun i hi => by
          have e : pid + c.length + i + 1 = pid + (c.length + i) + 1 := by omega
          rw [e]
          exact h (c.length + i) (by
            simp only [cellsParas, List.length_append]
            omega))]

/-- A table walk only consults the keys of the ids it visits. -/
theorem rebuildRows_filter (lk : List (String × String)) (P : String → Bool)
    (rs : List (List (List Para))) (pid : Nat)
    (h : ∀ i, i < (rowsParas rs).length → P (pKey (pid + i + 1)) = true) :
    rebuildRows (lk.filter (fun kv => P kv.1)) rs pid = rebuildRows lk rs pid := by
  induction rs generalizing pid with
  | nil => rfl
  | cons r rs ih =>
    simp only [rebuildRows]
    rw [rebuildCells_filter lk P r pid (fun i hi => h i (by
          simp only [rowsParas, List.length_append]
          omega)),
        rebuildCells_snd,
        ih (pid + (cellsParas r).length) (fun i hi => by
          have e : pid + (cellsParas r).length + i + 1
              = pid + ((cellsParas r).length + i) + 1 := by omega
          rw [e]
          exact h ((cellsParas r).length + i) (by
            simp only [rowsParas, List.length_append]
            omega))]

/-- The block walk only consults the keys `p_<pid+1> … p_<pid+n>` of the `n`
paragraphs it visits. -/
theorem rebuildBlocksAux_filter (lk : List (String × String)) (P : String → Bool)
    (bs : List Block) (pid : Nat)
    (h : ∀ i, i < (flattenParas bs).length → P (pKey (pid + i + 1)) = true) :
    rebuildBlocksAux (lk.filter (fun kv => P kv.1)) bs pid = rebuildBlocksAux lk bs pid := by
  induction bs generalizing pid with
  | nil => rfl
  | cons b bs ih =>
    cases b with
    | para p =>
      simp only [rebuildBlocksAux]
      rw [rebuildPara_filter lk P (pid + 1) p (h 0 (by
            simp only [flattenParas, blockParas, List.singleton_append, List.length_cons]
            omega)),
          ih (pid + 1) (fun i hi => by
            have e : pid + 1 + i + 1 = pid + (i + 1) + 1 := by omega
            rw [e]
            exact h (i + 1) (by
              simp only [flattenParas, blockParas, List.singleton_append, List.length_cons]
              omega))]
    | table rows =>
      simp only [rebuildBlocksAux]
      rw [rebuildRows_filter lk P rows pid (fun i hi => h i (by
            simp only [flattenParas, blockParas, List.length_append]
            omega)),
          rebuildRows_snd,
          ih (pid + (rowsParas rows).length) (fun i hi => by
            have e : pid + (rowsParas rows).length + i + 1
                = pid + ((rowsParas rows).length + i) + 1 := by omega
            rw [e]
            exact h ((rowsParas rows).length + i) (by
              simp only [flattenParas, blockParas, List.length_append]
              omega))]

/-- Every id the walk consults is among the assigned ids. -/
theorem mem_pIds (n : Nat) : ∀ (s i : Nat), i < n → pKey (s + i + 1) ∈ pIds s n := by
  induction n with
  | zero => intro s i hi; omega
  | succ n ih =>
    intro s i hi
    cases i with
    | zero => exact List.mem_cons_self _ _
    | succ i =>
      have e : s + (i + 1) + 1 = s + 1 + i + 1 := by omega
      rw [e]
      exact List.mem_cons_of_mem _ (ih (s + 1) i (by omega))

/-- C9: the clean-mode rebuild applies exactly the revisions that are accepted
and whose paragraph id occurs in the parse walk — restricting the revision set
to those entries changes nothing — and on a concrete two-paragraph document a
set holding one valid and one nonexistent id applies only the valid one,
returning normally with one change. -/
theorem c9_unknown_id_tolerance :
    (∀ (doc : List Block) (revs : List (String × RevisionRec)),
      rebuild_document doc
          (revs.filter (fun e =>
            e.2.accepted && decide (e.1 ∈ contentParaIds (parse_document doc))))
        = rebuild_document doc revs)
    ∧ rebuild_document c9Doc c9Revs
        = ([Block.para ⟨[⟨"Gamma text", plainFmt⟩], "Normal", none⟩,
            Block.para (bodyPara "Beta text")], 1) := by
  constructor
  · intro doc revs
    have hP : ∀ i, i < (flattenParas doc).length →
        decide (pKey (0 + i + 1) ∈ contentParaIds (parse_document doc)) = true := by
      intro i hi
      unfold parse_document
      rw [parseBlocksAux_ids]
      simp only [decide_eq_true_eq]
      exact mem_pIds _ 0 i hi
    simp only [rebuild_document]
    rw [buildLookup_filter revs
          (fun k => decide (k ∈ contentParaIds (parse_document doc))),
        rebuildBlocksAux_filter (buildLookup revs)
          (fun k => decide (k ∈ contentParaIds (parse_document doc))) doc 0 hP]
  · decide
